import Mathlib

/-!
Verification development for the MyTuts RAG engine (`rag_engine.py`).

Text is modelled as `List Char` (Python `str`), machine-independent sizes as
`Nat`, similarity scores as `ℚ` (Python floats carry exact decimal constants
and small rationals here).  Each definition is a direct shallow embedding of
the corresponding Python function; stateful methods of `RAGEngine` are
modelled by explicit state passing over `EngineState`.
-/

namespace RAG

/-- Python `str`, modelled as a list of characters. -/
abbrev Text := List Char

/-- Coerce a Lean string literal to the `Text` model. -/
def str (s : String) : Text := s.data

/-- Python `\s` / `str.strip` whitespace (ASCII range, as produced here). -/
def isWsChar (c : Char) : Bool :=
  c == ' ' || c == '\t' || c == '\n' || c == '\r' || c == '\x0b' || c == '\x0c'

/-- Python `\w` word characters (ASCII). -/
def isWordChar (c : Char) : Bool :=
  c.isAlpha || c.isDigit || c == '_'

/-- Sentence terminators of the split pattern `(?<=[.!?])\s+`. -/
def isTermChar (c : Char) : Bool :=
  c == '.' || c == '!' || c == '?'

/-- Python `str.lower()` (ASCII). -/
def pyLower (t : Text) : Text := t.map Char.toLower

/-- Python `str.strip()`: drop whitespace from both ends. -/
def pyStrip (t : Text) : Text :=
  ((t.dropWhile isWsChar).reverse.dropWhile isWsChar).reverse

/-- Worker for `re.sub(r'\s+', ' ', text)`: `inRun` records whether the
single replacement space of the current whitespace run was already output. -/
def collapseWsAux : Bool → Text → Text
  | _, [] => []
  | inRun, c :: rest =>
    if isWsChar c then
      if inRun then collapseWsAux true rest
      else ' ' :: collapseWsAux true rest
    else c :: collapseWsAux false rest

/-- `re.sub(r'\s+', ' ', text)`: collapse each whitespace run to one space. -/
def collapseWs (t : Text) : Text := collapseWsAux false t

/-- Whitelist of `re.sub(r'[^\w\s.,;:!?()\-\'""]', ' ', text)`. -/
def isAllowedChar (c : Char) : Bool :=
  isWordChar c || isWsChar c ||
    (c == '.' || c == ',' || c == ';' || c == ':' || c == '!' || c == '?' ||
     c == '(' || c == ')' || c == '-' || c == '\'' || c == '"')

/-- Replace every character outside the whitelist by a space. -/
def replaceDisallowed (t : Text) : Text :=
  t.map (fun c => if isAllowedChar c then c else ' ')

/-- Worker for `re.sub(r' +', ' ', text)`. -/
def collapseSpacesAux : Bool → Text → Text
  | _, [] => []
  | inRun, c :: rest =>
    if c == ' ' then
      if inRun then collapseSpacesAux true rest
      else ' ' :: collapseSpacesAux true rest
    else c :: collapseSpacesAux false rest

/-- `re.sub(r' +', ' ', text)`: collapse runs of literal spaces. -/
def collapseSpaces (t : Text) : Text := collapseSpacesAux false t

/-- `RAGEngine.preprocess_text`. -/
def preprocess_text (t : Text) : Text :=
  pyStrip (collapseSpaces (replaceDisallowed (collapseWs t)))

/-- Whether a text begins with a whitespace character. -/
def startsWithWs : Text → Bool
  | [] => false
  | c :: _ => isWsChar c

/-- Worker for `re.split(r'(?<=[.!?])\s+', text)`: scan the text, closing the
current piece (keeping the terminator) at every terminator that is followed
by whitespace; `skipping` records that the matched whitespace run is still
being discarded. -/
def splitSentencesAux : Bool → Text → Text → List Text
  | _, [], acc => [acc]
  | skipping, c :: rest, acc =>
    if skipping && isWsChar c then
      splitSentencesAux true rest acc
    else if isTermChar c && startsWithWs rest then
      (acc ++ [c]) :: splitSentencesAux true rest []
    else
      splitSentencesAux false rest (acc ++ [c])

/-- `re.split(r'(?<=[.!?])\s+', processed_text)`. -/
def split_sentences (t : Text) : List Text := splitSentencesAux false t []

/-- `' '.join(l)`. -/
def joinSp : List Text → Text
  | [] => []
  | [s] => s
  | s :: rest => s ++ ' ' :: joinSp rest

/-- A chunk record as produced by `create_chunks`; `sentences` is a ghost
field recording the `sentence_buffer` at emission time (the Python dict
carries only `text`, `length`, `sentence_count`). -/
structure Chunk where
  text : Text
  length : Nat
  sentence_count : Nat
  sentences : List Text
deriving DecidableEq

/-- Ghost record of one chunk boundary: the closed chunk's sentence buffer,
the sentence being processed when the boundary occurred, and the freshly
seeded chunk string and buffer. -/
structure Boundary where
  closedBuffer : List Text
  currentSentence : Text
  newChunk : Text
  newBuffer : List Text
deriving DecidableEq

/-- Loop state of `create_chunks`: emitted chunks, the accumulating string,
its sentence buffer, plus the ghost boundary trace. -/
structure ChunkState where
  chunks : List Chunk
  current_chunk : Text
  sentence_buffer : List Text
  boundaries : List Boundary
deriving DecidableEq

/-- Emit a chunk record from the accumulated string and its buffer. -/
def mkChunk (cur : Text) (buf : List Text) : Chunk :=
  { text := pyStrip cur, length := cur.length,
    sentence_count := buf.length, sentences := buf }

/-- Body of the `for sentence in sentences` loop of `create_chunks`. -/
def chunkStep (chunk_size : Nat) (st : ChunkState) (sentence : Text) : ChunkState :=
  let projected := st.current_chunk.length + sentence.length + 1
  if projected > chunk_size ∧ st.current_chunk ≠ [] then
    let closed := mkChunk st.current_chunk st.sentence_buffer
    if st.sentence_buffer.length > 2 then
      let overlap := st.sentence_buffer.drop (st.sentence_buffer.length - 2)
      let newCur := joinSp overlap ++ ' ' :: sentence
      { chunks := st.chunks ++ [closed],
        current_chunk := newCur,
        sentence_buffer := overlap ++ [sentence],
        boundaries := st.boundaries ++
          [⟨st.sentence_buffer, sentence, newCur, overlap ++ [sentence]⟩] }
    else
      { chunks := st.chunks ++ [closed],
        current_chunk := sentence,
        sentence_buffer := [sentence],
        boundaries := st.boundaries ++
          [⟨st.sentence_buffer, sentence, sentence, [sentence]⟩] }
  else
    { st with
      current_chunk :=
        if st.current_chunk ≠ [] then st.current_chunk ++ ' ' :: sentence
        else sentence,
      sentence_buffer := st.sentence_buffer ++ [sentence] }

/-- The `for sentence in sentences` loop of `create_chunks`, run over the
sentences of the preprocessed text from the empty initial state. -/
def chunkLoop (text : Text) (chunk_size : Nat) : ChunkState :=
  (split_sentences (preprocess_text text)).foldl (chunkStep chunk_size) ⟨[], [], [], []⟩

/-- `RAGEngine.create_chunks`, returning the full final loop state
(including the ghost boundary trace and final-chunk emission). -/
def create_chunks_run (text : Text) (chunk_size : Nat) : ChunkState :=
  let final := chunkLoop text chunk_size
  if pyStrip final.current_chunk ≠ [] then
    { final with
      chunks := final.chunks ++ [mkChunk final.current_chunk final.sentence_buffer] }
  else final

/-- `RAGEngine.create_chunks` (the `overlap` parameter is accepted but,
as in the source, never consulted). -/
def create_chunks (text : Text) (chunk_size : Nat := 1000) (overlap : Nat := 100) :
    List Chunk :=
  (create_chunks_run text chunk_size).chunks

/-- A stored chunk record (`chunk_data` in `add_document`). -/
structure ChunkData where
  id : Text
  text : Text
  text_lower : Text
  filename : Text
  doc_id : Text
  chunk_index : Nat
  length : Nat
  sentence_count : Nat
deriving DecidableEq

/-- A document metadata record (`self.documents[doc_id]`). -/
structure DocMeta where
  filename : Text
  chunks : Nat
  total_chars : Nat
  preview : Text
deriving DecidableEq

/-- The engine's mutable state: the `self.documents` dict (modelled as an
insertion-ordered association list; `uuid4` keys are assumed fresh) and the
`self.chunks` list. -/
structure EngineState where
  documents : List (Text × DocMeta)
  chunks : List ChunkData
deriving DecidableEq

/-- State right after `RAGEngine.__init__`. -/
def initState : EngineState := ⟨[], []⟩

/-- Failures of ingestion: `extract_text_from_pdf` raises when no readable
text is found (`"No readable text found in the PDF file"`). -/
inductive RagError where
  | extractionError : RagError
deriving DecidableEq

/-- `document_text[:300] + "..." if len(document_text) > 300 else document_text`. -/
def preview_of (t : Text) : Text :=
  if t.length > 300 then t.take 300 ++ str "..." else t

/-- Decimal rendering of a chunk index for the id `f"{doc_id}_{i}"`. -/
def natToText (n : Nat) : Text := (Nat.repr n).data

/-- `RAGEngine.add_document`, taking the accumulated extracted text (PDF
parsing itself is an external collaborator).  `extract_text_from_pdf`
raises when the extracted text is whitespace-only, otherwise returns the
stripped text that all later steps use; `doc_id` stands for the fresh
`uuid.uuid4()` value.  On success returns the new state and
`(doc_id, number_of_chunks)`. -/
def add_document (st : EngineState) (document_text : Text) (filename : Text)
    (doc_id : Text) : Except RagError (EngineState × Text × Nat) :=
  if pyStrip document_text = [] then
    .error .extractionError
  else
    let t := pyStrip document_text
    let doc_chunks := create_chunks t
    let newChunks := doc_chunks.enum.map (fun p =>
      { id := doc_id ++ '_' :: natToText p.1
        text := p.2.text
        text_lower := pyLower p.2.text
        filename := filename
        doc_id := doc_id
        chunk_index := p.1
        length := p.2.length
        sentence_count := p.2.sentence_count : ChunkData })
    let meta : DocMeta :=
      { filename := filename, chunks := doc_chunks.length,
        total_chars := t.length, preview := preview_of t }
    .ok ({ documents := st.documents ++ [(doc_id, meta)],
           chunks := st.chunks ++ newChunks }, doc_id, doc_chunks.length)

/-- Worker for `re.findall(r'\b\w+\b', t)`: `acc` is the word-character run
currently being read. -/
def findWordTokensAux : Text → Text → List Text
  | [], acc => if acc = [] then [] else [acc]
  | c :: rest, acc =>
    if isWordChar c then findWordTokensAux rest (acc ++ [c])
    else if acc = [] then findWordTokensAux rest []
    else acc :: findWordTokensAux rest []

/-- `re.findall(r'\b\w+\b', t)`: the maximal runs of word characters. -/
def findWordTokens (t : Text) : List Text := findWordTokensAux t []

/-- Python `set(re.findall(r'\b\w+\b', t))`. -/
def wordSet (t : Text) : Finset Text := (findWordTokens t).toFinset

/-- `set(re.findall(r'\b\w+\b', query.lower()))`. -/
def queryWords (query : Text) : Finset Text := wordSet (pyLower query)

/-- Python substring test `needle in hay`. -/
def containsSub (hay needle : Text) : Bool :=
  (List.range (hay.length + 1)).any
    (fun i => (hay.drop i).take needle.length == needle)

/-- A search result (`scored_chunks` entry).  `matching_words` is kept as a
set: Python materialises `list(common_words)` in unspecified hash order. -/
structure ScoredChunk where
  text : Text
  filename : Text
  similarity_score : ℚ
  chunk_index : Nat
  matching_words : Finset Text
deriving DecidableEq

/-- Per-chunk body of the scoring loop of `search_relevant_content`: `none`
when the chunk shares no word with the query, otherwise the scored entry. -/
def scoreChunk (query_lower : Text) (query_words : Finset Text) (c : ChunkData) :
    Option ScoredChunk :=
  let chunk_words := wordSet c.text_lower
  let common_words := query_words ∩ chunk_words
  if common_words = ∅ then none
  else
    let base_score : ℚ := (common_words.card : ℚ) / (query_words.card : ℚ)
    let phrase_bonus : ℚ := if containsSub c.text_lower query_lower then 3/10 else 0
    let sequence_bonus : ℚ := if common_words.card > 1 then 1/5 else 0
    let final_score := base_score + phrase_bonus + sequence_bonus
    some { text := c.text, filename := c.filename,
           similarity_score := min final_score 1,
           chunk_index := c.chunk_index, matching_words := common_words }

/-- The `scored_chunks` list before sorting (encounter order). -/
def scored_chunks (st : EngineState) (query : Text) : List ScoredChunk :=
  st.chunks.filterMap (scoreChunk (pyLower query) (queryWords query))

/-- Stable descending insertion: a later element passes earlier elements
only while its score is strictly smaller, so ties keep encounter order. -/
def insertDesc (x : ScoredChunk) : List ScoredChunk → List ScoredChunk
  | [] => [x]
  | y :: ys =>
    if x.similarity_score < y.similarity_score then y :: insertDesc x ys
    else x :: y :: ys

/-- Stable sort by `similarity_score` descending, modelling Python's stable
`list.sort(key=..., reverse=True)`. -/
def sortDesc : List ScoredChunk → List ScoredChunk
  | [] => []
  | x :: xs => insertDesc x (sortDesc xs)

/-- `RAGEngine.search_relevant_content`.  The method only reads `self`, so
the state is returned unchanged. -/
def search_relevant_content (st : EngineState) (query : Text)
    (max_results : Nat := 3) : EngineState × List ScoredChunk :=
  if st.chunks = [] then (st, [])
  else
    let query_lower := pyLower query
    let query_words := queryWords query
    if query_words = ∅ then (st, [])
    else
      (st, (sortDesc (st.chunks.filterMap (scoreChunk query_lower query_words))).take
        max_results)

/-- Result of `get_document_stats`. -/
structure Stats where
  total_documents : Nat
  total_chunks : Nat
  documents : List DocMeta
deriving DecidableEq

/-- `RAGEngine.get_document_stats` (pure read of the collections). -/
def get_document_stats (st : EngineState) : EngineState × Stats :=
  (st, { total_documents := st.documents.length,
         total_chunks := st.chunks.length,
         documents := st.documents.map Prod.snd })

/-- Failure of the external generation call (`call_google_ai` raising). -/
inductive GenError where
  | generationFailed : GenError
deriving DecidableEq

/-- One `sources` entry of `generate_answer`: filename, confidence, and the
first five matching terms (Python slices the set's hash-ordered list; the
model slices the canonically sorted one). -/
structure SourceInfo where
  filename : Text
  confidence : ℚ
  matching_terms : List Text
deriving DecidableEq

/-- Result dict of `generate_answer`. -/
structure AnswerResult where
  answer : Text
  sources : List SourceInfo
  context_used : Nat
deriving DecidableEq

/-- ASCII apostrophe, spliced into literals below. -/
def apos : Char := Char.ofNat 39

/-- Join the pieces with apostrophes between them. -/
def aposJoin (parts : List String) : Text :=
  List.intercalate [apos] (parts.map String.data)

/-- The fixed no-relevant-information answer of `generate_answer`. -/
def no_info_answer : Text :=
  aposJoin
    ["I couldn",
     "t find relevant information in your uploaded documents to answer this question. Please make sure you",
     "ve uploaded materials that cover this topic, or try rephrasing your question with different keywords."]

/-- `f"[Source {i+1} from {filename}]\n{text}"` for one retrieved chunk. -/
def contextPart (i : Nat) (c : ScoredChunk) : Text :=
  str "[Source " ++ natToText (i + 1) ++ str " from " ++ c.filename ++ str "]\n"
    ++ c.text

/-- The context block: the labelled chunks joined by blank lines. -/
def buildContext (chunks : List ScoredChunk) : Text :=
  List.intercalate (str "\n\n") (chunks.enum.map (fun p => contextPart p.1 p.2))

/-- The `style_instruction` block for advanced complexity levels. -/
def advancedStyle : Text :=
  str "Provide a comprehensive, technical explanation that includes:\n- Detailed technical terminology and precise definitions\n- In-depth analysis of processes and mechanisms\n- Mathematical formulations, equations, or formulas when applicable\n- Advanced conceptual relationships and theoretical implications\n- References to established principles and theories"

/-- The `style_instruction` block for beginner complexity levels. -/
def beginnerStyle : Text :=
  str "Provide a clear, beginner-friendly explanation that includes:\n- Simple, accessible language with helpful analogies\n- Step-by-step breakdown of complex concepts\n- Real-world examples and practical applications\n- Minimal technical jargon, with explanations when necessary\n- Easy-to-understand comparisons and metaphors"

/-- The assembled prompt of `generate_answer`. -/
def buildPrompt (context question style_instruction : Text) : Text :=
  str "You are MYTUTS, an intelligent AI study assistant helping students understand their course materials. Your role is to provide clear, accurate explanations based on the uploaded study documents.\n\nCONTEXT FROM STUDENT"
    ++ [apos] ++ str "S UPLOADED MATERIALS:\n" ++ context
    ++ str "\n\nSTUDENT" ++ [apos] ++ str "S QUESTION: " ++ question
    ++ str "\n\nEXPLANATION APPROACH: " ++ style_instruction
    ++ str "\n\nRESPONSE GUIDELINES:\n1. Answer the question directly and comprehensively using the provided context\n2. Apply the specified complexity level consistently throughout your response\n3. Include specific details, examples, and explanations from the context\n4. Structure your response clearly with appropriate headings or organization\n5. If the context doesn"
    ++ [apos] ++ str "t fully address the question, mention what additional information would be helpful\n6. Always ground your response in the provided materials\n7. Be engaging and educational while maintaining accuracy\n\nPlease provide your detailed response:"

/-- Canonically ordered list of a token set (Python iterates hash order). -/
def tokenList (s : Finset Text) : List Text :=
  s.sort (· ≤ ·)

/-- `RAGEngine.generate_answer`.  The external Google AI call is the opaque
capability `callMl`; the method reads but never mutates the index. -/
def generate_answer (callMl : Text → Except GenError Text) (st : EngineState)
    (question : Text) (complexity_level : Text) :
    EngineState × Except GenError AnswerResult :=
  let res := search_relevant_content st question 3
  let relevant_chunks := res.2
  if relevant_chunks = [] then
    (res.1, .ok { answer := no_info_answer, sources := [], context_used := 0 })
  else
    let context := buildContext relevant_chunks
    let style_instruction :=
      if containsSub (pyLower complexity_level) (str "advanced") then advancedStyle
      else beginnerStyle
    let prompt := buildPrompt context question style_instruction
    match callMl prompt with
    | .error e => (res.1, .error e)
    | .ok ai_response =>
      let sources := relevant_chunks.map (fun c =>
        { filename := c.filename, confidence := c.similarity_score,
          matching_terms := (tokenList c.matching_words).take 5 : SourceInfo })
      (res.1, .ok { answer := ai_response, sources := sources,
                    context_used := relevant_chunks.length })

/-- States reachable by the index: the initial state and every state
produced by a successful `add_document` with a fresh (`uuid4`) id. -/
inductive Reachable : EngineState → Prop
  | init : Reachable initState
  | add (st st' : EngineState) (text fn id rid : Text) (n : Nat) :
      Reachable st →
      (∀ m, (id, m) ∉ st.documents) →
      add_document st text fn id = .ok (st', rid, n) →
      Reachable st'

/-! ### Predicates and helper functions used to state the claims -/

/-- A sentence piece is well formed: non-empty, first character not
whitespace.  Every piece of `split_sentences (preprocess_text t)` is such
when the processed text is non-empty. -/
def goodSentence (t : Text) : Prop :=
  t ≠ [] ∧ ∀ c, t.head? = some c → isWsChar c = false

/-- The last character, when there is one, is not whitespace. -/
def endsNonWs (t : Text) : Prop :=
  ∀ c, t.getLast? = some c → isWsChar c = false

/-- Drop the two carried-over seed sentences of a chunk whose predecessor
had more than two sentences. -/
def dropOverlap (prev cur : List Text) : List Text :=
  if prev.length > 2 then cur.drop 2 else cur

/-- Worker for `seqConcat`. -/
def seqConcatGo (prev : List Text) : List (List Text) → List Text
  | [] => []
  | b :: bs => dropOverlap prev b ++ seqConcatGo b bs

/-- Concatenate the chunks' sentence sequences in order, dropping each
chunk's two-sentence overlap seed (the reconstruction of the original
sentence sequence described by the spec). -/
def seqConcat : List (List Text) → List Text
  | [] => []
  | b :: bs => b ++ seqConcatGo b bs

/-- Default values for positional access into chunk/boundary lists. -/
def noChunk : Chunk := ⟨[], 0, 0, []⟩

/-- Default boundary record. -/
def noBoundary : Boundary := ⟨[], [], [], []⟩

/-- The shape every boundary event must have: with more than two closed
sentences the new chunk is seeded with the closed buffer's last two
sentences followed by the current sentence; otherwise it holds only the
current sentence. -/
def shapeOk (b : Boundary) : Prop :=
  (2 < b.closedBuffer.length →
     b.newBuffer = b.closedBuffer.drop (b.closedBuffer.length - 2) ++ [b.currentSentence] ∧
     b.newChunk = joinSp b.newBuffer) ∧
  (b.closedBuffer.length ≤ 2 →
     b.newBuffer = [b.currentSentence] ∧ b.newChunk = b.currentSentence)

/-- The buffer seeded at a boundary is an initial segment of the next
emitted chunk's sentences (or of the still-open buffer). -/
def seeds (nb : List Text) (cs : List Chunk) (buf : List Text) : Prop :=
  match cs with
  | c :: _ => ∃ t, c.sentences = nb ++ t
  | [] => ∃ t, buf = nb ++ t

/-- Correspondence between the boundary trace and the emitted chunks of
the running loop state. -/
def corr (buf : List Text) : List Boundary → List Chunk → Prop
  | [], [] => True
  | b :: bs, c :: cs =>
      b.closedBuffer = c.sentences ∧ shapeOk b ∧ seeds b.newBuffer cs buf ∧
        corr buf bs cs
  | _, _ => False

/-- Invariant of the chunking loop, relative to the sentences consumed so
far.  It carries everything needed for the sizing, reconstruction and
final-emission arguments. -/
structure ChunkInv (size : Nat) (consumed : List Text) (st : ChunkState) : Prop where
  join_eq : st.current_chunk = joinSp st.sentence_buffer
  buf_good : ∀ s ∈ st.sentence_buffer, goodSentence s
  cur_bound : st.current_chunk.length ≤ size ∨ st.sentence_buffer.length = 1 ∨
    st.sentence_buffer.length = 3
  chunks_bound : ∀ ch ∈ st.chunks,
    ch.length ≤ size ∨ ch.sentence_count = 1 ∨ ch.sentence_count = 3
  reconstruct : seqConcat (st.chunks.map Chunk.sentences ++ [st.sentence_buffer]) = consumed
  compat : ∀ ch, st.chunks.getLast? = some ch → 2 < ch.sentences.length →
    2 ≤ st.sentence_buffer.length
  nil_buf : st.sentence_buffer = [] → st.chunks = []

/-- Boolean test used to state sort stability: does a result carry the
given score? -/
def scoreIs (s : ℚ) (r : ScoredChunk) : Bool := decide (r.similarity_score = s)

/-- Descending score order between results. -/
def scoreGE (a b : ScoredChunk) : Prop :=
  b.similarity_score ≤ a.similarity_score

/-! ### Basic facts about stripping and sentence splitting -/

theorem dropWhile_head_false {p : Char → Bool} {l t : Text} {c : Char}
    (h : l.dropWhile p = c :: t) : p c = false := by
  induction l with
  | nil => simp [List.dropWhile] at h
  | cons a rest ih =>
    simp only [List.dropWhile] at h
    by_cases hpa : p a = true
    · rw [hpa] at h
      exact ih h
    · rw [Bool.not_eq_true] at hpa
      rw [hpa] at h
      simp only [List.cons.injEq] at h
      rw [← h.1]
      exact hpa

theorem mem_dropWhile_of_not {p : Char → Bool} {l : Text} {c : Char}
    (hc : c ∈ l) (hp : p c = false) : c ∈ l.dropWhile p := by
  induction l with
  | nil => cases hc
  | cons a rest ih =>
    simp only [List.dropWhile]
    by_cases hpa : p a = true
    · rw [hpa]
      rcases List.mem_cons.mp hc with rfl | h
      · rw [hpa] at hp; cases hp
      · exact ih h
    · rw [Bool.not_eq_true] at hpa
      rw [hpa]
      exact hc

theorem pyStrip_ne_nil {t : Text} {c : Char} (hc : c ∈ t) (hp : isWsChar c = false) :
    pyStrip t ≠ [] := by
  intro h
  unfold pyStrip at h
  rw [List.reverse_eq_nil_iff] at h
  have h1 := List.dropWhile_eq_nil_iff.mp h
  have h2 : c ∈ t.dropWhile isWsChar := mem_dropWhile_of_not hc hp
  have := h1 c (List.mem_reverse.mpr h2)
  rw [hp] at this
  cases this

theorem dropWhile_suffix (p : Char → Bool) (l : Text) :
    ∃ s, l = s ++ l.dropWhile p := by
  induction l with
  | nil => exact ⟨[], rfl⟩
  | cons a rest ih =>
    simp only [List.dropWhile]
    by_cases hpa : p a = true
    · rw [hpa]
      obtain ⟨s, hs⟩ := ih
      exact ⟨a :: s, by rw [List.cons_append, ← hs]⟩
    · rw [Bool.not_eq_true] at hpa
      rw [hpa]
      exact ⟨[], rfl⟩

theorem endsNonWs_pyStrip (t : Text) : endsNonWs (pyStrip t) := by
  intro c hc
  unfold pyStrip at hc
  rw [List.getLast?_reverse] at hc
  cases hv : (t.dropWhile isWsChar).reverse.dropWhile isWsChar with
  | nil => rw [hv] at hc; cases hc
  | cons a s =>
    rw [hv] at hc
    simp only [List.head?_cons, Option.some.injEq] at hc
    rw [← hc]
    exact dropWhile_head_false hv

theorem goodSentence_pyStrip {t : Text} (h : pyStrip t ≠ []) :
    goodSentence (pyStrip t) := by
  refine ⟨h, ?_⟩
  intro c hc
  unfold pyStrip at hc
  rw [List.head?_reverse] at hc
  obtain ⟨s, hs⟩ := dropWhile_suffix isWsChar (t.dropWhile isWsChar).reverse
  have h1 : (t.dropWhile isWsChar).reverse.getLast? = some c := by
    rw [hs, List.getLast?_append, hc]
    rfl
  rw [List.getLast?_reverse] at h1
  cases hu : t.dropWhile isWsChar with
  | nil => rw [hu] at h1; cases h1
  | cons a s' =>
    rw [hu] at h1
    simp only [List.head?_cons, Option.some.injEq] at h1
    rw [← h1]
    exact dropWhile_head_false hu

theorem endsNonWs_of_cons {c : Char} {rest : Text} (h : endsNonWs (c :: rest))
    (hne : rest ≠ []) : endsNonWs rest := by
  intro x hx
  apply h
  cases rest with
  | nil => cases hne rfl
  | cons b r => rw [List.getLast?_cons_cons]; exact hx

theorem getLast?_mem' {l : Text} {c : Char} (h : l.getLast? = some c) : c ∈ l := by
  induction l with
  | nil => cases h
  | cons a rest ih =>
    cases rest with
    | nil =>
      simp only [List.getLast?_singleton, Option.some.injEq] at h
      rw [← h]; exact List.mem_singleton_self a
    | cons b r =>
      rw [List.getLast?_cons_cons] at h
      exact List.mem_cons_of_mem a (ih h)

theorem dropWhile_ne_nil_of_endsNonWs {l : Text} (hne : l ≠ [])
    (hend : endsNonWs l) : l.dropWhile isWsChar ≠ [] := by
  intro h
  have hall := List.dropWhile_eq_nil_iff.mp h
  cases hl : l.getLast? with
  | none => exact hne (List.getLast?_eq_none_iff.mp hl)
  | some c =>
    have hc := hend c hl
    have := hall c (getLast?_mem' hl)
    rw [hc] at this
    cases this

theorem endsNonWs_dropWhile {l : Text} (hend : endsNonWs l) :
    endsNonWs (l.dropWhile isWsChar) := by
  intro c hc
  obtain ⟨s, hs⟩ := dropWhile_suffix isWsChar l
  apply hend
  rw [hs, List.getLast?_append, hc]
  rfl

theorem not_ws_of_term {c : Char} (h : isTermChar c = true) : isWsChar c = false := by
  have h' : (c = '.' ∨ c = '!') ∨ c = '?' := by
    simpa [isTermChar] using h
  rcases h' with (rfl | rfl) | rfl <;> rfl

theorem goodSentence_append_char {acc : Text} {c : Char}
    (h : goodSentence acc) : goodSentence (acc ++ [c]) := by
  obtain ⟨hne, hhead⟩ := h
  cases acc with
  | nil => cases hne rfl
  | cons a rest =>
    refine ⟨by simp, ?_⟩
    intro x hx
    simp only [List.cons_append, List.head?_cons, Option.some.injEq] at hx
    apply hhead
    rw [← hx]
    rfl

theorem goodSentence_single {c : Char} (h : isWsChar c = false) :
    goodSentence [c] := by
  refine ⟨by simp, ?_⟩
  intro x hx
  simp only [List.head?_cons, Option.some.injEq] at hx
  rw [← hx]
  exact h

theorem splitSentencesAux_good :
    ∀ (input : Text) (skipping : Bool) (acc : Text),
      endsNonWs input →
      (skipping = true → acc = [] ∧ input ≠ []) →
      (skipping = false → acc = [] → input ≠ [] ∧
        ∀ c, input.head? = some c → isWsChar c = false) →
      (acc ≠ [] → goodSentence acc) →
      ∀ piece ∈ splitSentencesAux skipping input acc, goodSentence piece := by
  intro input
  induction input with
  | nil =>
    intro skipping acc hend hskip hnoskip hgood piece hpiece
    simp only [splitSentencesAux, List.mem_singleton] at hpiece
    rw [hpiece]
    cases skipping with
    | true => exact absurd rfl (hskip rfl).2
    | false =>
      by_cases hacc : acc = []
      · exact absurd rfl (hnoskip rfl hacc).1
      · exact hgood hacc
  | cons c rest ih =>
    intro skipping acc hend hskip hnoskip hgood piece hpiece
    have hendr : endsNonWs rest := by
      by_cases hr : rest = []
      · subst hr
        intro x hx
        cases hx
      · exact endsNonWs_of_cons hend hr
    simp only [splitSentencesAux] at hpiece
    by_cases h1 : (skipping && isWsChar c) = true
    · rw [if_pos h1] at hpiece
      obtain ⟨hsk, hwc⟩ : skipping = true ∧ isWsChar c = true := by simpa using h1
      have hrestne : rest ≠ [] := by
        intro h
        subst h
        have := hend c (by simp)
        rw [hwc] at this
        cases this
      exact ih true acc hendr (fun _ => ⟨(hskip hsk).1, hrestne⟩)
        (fun h => absurd h (by decide)) hgood piece hpiece
    · rw [if_neg h1] at hpiece
      by_cases h2 : (isTermChar c && startsWithWs rest) = true
      · rw [if_pos h2] at hpiece
        obtain ⟨hterm, hws⟩ : isTermChar c = true ∧ startsWithWs rest = true := by simpa using h2
        have hrestne : rest ≠ [] := by
          cases rest with
          | nil => simp [startsWithWs] at hws
          | cons _ _ => simp
        have hgoodp : goodSentence (acc ++ [c]) := by
          by_cases hacc : acc = []
          · subst hacc
            simpa using goodSentence_single (not_ws_of_term hterm)
          · exact goodSentence_append_char (hgood hacc)
        rcases List.mem_cons.mp hpiece with rfl | hrest2
        · exact hgoodp
        · exact ih true [] hendr (fun _ => ⟨rfl, hrestne⟩)
            (fun h => absurd h (by decide)) (fun h => absurd rfl h) piece hrest2
      · rw [if_neg h2] at hpiece
        have hcgood : goodSentence (acc ++ [c]) := by
          by_cases hacc : acc = []
          · subst hacc
            have hcws : isWsChar c = false := by
              cases hsk : skipping with
              | true =>
                cases hwc : isWsChar c with
                | false => rfl
                | true => rw [hsk, hwc] at h1; simp at h1
              | false => exact (hnoskip hsk rfl).2 c rfl
            simpa using goodSentence_single hcws
          · exact goodSentence_append_char (hgood hacc)
        exact ih false (acc ++ [c]) hendr (fun h => absurd h (by decide))
          (fun _ h => absurd h (by simp)) (fun _ => hcgood) piece hpiece

theorem split_sentences_good {t : Text} (hne : t ≠ [])
    (hgood : goodSentence t) (hend : endsNonWs t) :
    ∀ piece ∈ split_sentences t, goodSentence piece := by
  intro piece hpiece
  exact splitSentencesAux_good t false [] hend (fun h => absurd h (by decide))
    (fun _ _ => ⟨hne, hgood.2⟩) (fun h => absurd rfl h) piece hpiece

theorem preprocess_good {t : Text} (hne : preprocess_text t ≠ []) :
    ∀ piece ∈ split_sentences (preprocess_text t), goodSentence piece := by
  have h1 : goodSentence (preprocess_text t) := goodSentence_pyStrip hne
  have h2 : endsNonWs (preprocess_text t) := endsNonWs_pyStrip _
  exact split_sentences_good hne h1 h2

theorem splitSentencesAux_ne_nil :
    ∀ (input : Text) (skipping : Bool) (acc : Text),
      splitSentencesAux skipping input acc ≠ [] := by
  intro input
  induction input with
  | nil =>
    intro skipping acc
    simp [splitSentencesAux]
  | cons c rest ih =>
    intro skipping acc
    simp only [splitSentencesAux]
    by_cases h1 : (skipping && isWsChar c) = true
    · rw [if_pos h1]
      exact ih true acc
    · rw [if_neg h1]
      by_cases h2 : (isTermChar c && startsWithWs rest) = true
      · rw [if_pos h2]
        simp
      · rw [if_neg h2]
        exact ih false (acc ++ [c])

/-! ### Facts about `joinSp` and `seqConcat` -/

theorem joinSp_snoc (l : List Text) (s : Text) (h : l ≠ []) :
    joinSp (l ++ [s]) = joinSp l ++ ' ' :: s := by
  induction l with
  | nil => cases h rfl
  | cons a rest ih =>
    cases rest with
    | nil => simp [joinSp]
    | cons b r =>
      have e1 : joinSp ((a :: b :: r) ++ [s]) = a ++ ' ' :: joinSp ((b :: r) ++ [s]) := rfl
      have e2 : joinSp (a :: b :: r) = a ++ ' ' :: joinSp (b :: r) := rfl
      rw [e1, ih (by simp), e2]
      simp [List.append_assoc]

theorem joinSp_good {l : List Text} (hne : l ≠ []) (hg : ∀ s ∈ l, goodSentence s) :
    goodSentence (joinSp l) := by
  cases l with
  | nil => cases hne rfl
  | cons a rest =>
    have ha := hg a (List.mem_cons_self a rest)
    cases rest with
    | nil => simpa [joinSp] using ha
    | cons b r =>
      obtain ⟨hane, hahead⟩ := ha
      cases a with
      | nil => cases hane rfl
      | cons a0 as =>
        refine ⟨by simp [joinSp], ?_⟩
        intro c hc
        have e : joinSp ((a0 :: as) :: b :: r) = (a0 :: as) ++ ' ' :: joinSp (b :: r) := rfl
        rw [e] at hc
        simp only [List.cons_append, List.head?_cons, Option.some.injEq] at hc
        rw [← hc]
        exact hahead a0 rfl

theorem buf_nil_of_join_nil {buf : List Text} (hg : ∀ s ∈ buf, goodSentence s)
    (h : joinSp buf = []) : buf = [] := by
  by_contra hne
  exact (joinSp_good hne hg).1 h

theorem getLastD_concat (L : List (List Text)) (a d : List Text) :
    (L ++ [a]).getLastD d = a := by
  rw [List.getLastD_eq_getLast?, List.getLast?_concat]
  rfl

theorem seqConcatGo_snoc (prev : List Text) (L : List (List Text)) (y : List Text) :
    seqConcatGo prev (L ++ [y]) =
      seqConcatGo prev L ++ dropOverlap (L.getLastD prev) y := by
  induction L generalizing prev with
  | nil => simp [seqConcatGo, List.getLastD]
  | cons b bs ih =>
    have e1 : seqConcatGo prev ((b :: bs) ++ [y])
        = dropOverlap prev b ++ seqConcatGo b (bs ++ [y]) := rfl
    have e2 : seqConcatGo prev (b :: bs) = dropOverlap prev b ++ seqConcatGo b bs := rfl
    rw [e1, e2, ih b, List.getLastD_cons, List.append_assoc]

theorem seqConcat_snoc (L : List (List Text)) (y : List Text) (h : L ≠ []) :
    seqConcat (L ++ [y]) = seqConcat L ++ dropOverlap (L.getLastD []) y := by
  cases L with
  | nil => cases h rfl
  | cons b bs =>
    have e1 : seqConcat ((b :: bs) ++ [y]) = b ++ seqConcatGo b (bs ++ [y]) := rfl
    have e2 : seqConcat (b :: bs) = b ++ seqConcatGo b bs := rfl
    rw [e1, e2, seqConcatGo_snoc, List.getLastD_cons, List.append_assoc]

theorem dropOverlap_snoc (prev buf : List Text) (s : Text)
    (h : 2 < prev.length → 2 ≤ buf.length) :
    dropOverlap prev (buf ++ [s]) = dropOverlap prev buf ++ [s] := by
  unfold dropOverlap
  by_cases hgt : prev.length > 2
  · rw [if_pos hgt, if_pos hgt]
    exact List.drop_append_of_le_length (h hgt)
  · rw [if_neg hgt, if_neg hgt]

theorem seqConcat_snoc_extend (M : List (List Text)) (buf : List Text) (s : Text)
    (hcompat : 2 < (M.getLastD []).length → 2 ≤ buf.length) :
    seqConcat (M ++ [buf ++ [s]]) = seqConcat (M ++ [buf]) ++ [s] := by
  cases M with
  | nil => simp [seqConcat, seqConcatGo]
  | cons b bs =>
    rw [seqConcat_snoc _ _ (by simp), seqConcat_snoc _ _ (by simp),
      dropOverlap_snoc _ _ _ hcompat, List.append_assoc]

theorem compat_map {cs : List Chunk} {buf : List Text}
    (h : ∀ ch, cs.getLast? = some ch → 2 < ch.sentences.length → 2 ≤ buf.length) :
    2 < ((cs.map Chunk.sentences).getLastD []).length → 2 ≤ buf.length := by
  intro hlt
  cases hc : cs.getLast? with
  | none =>
    have : cs = [] := List.getLast?_eq_none_iff.mp hc
    subst this
    simp [List.getLastD] at hlt
  | some ch =>
    apply h ch hc
    have hm : (cs.map Chunk.sentences).getLast? = some ch.sentences := by
      rw [List.getLast?_map, hc]
      rfl
    rwa [List.getLastD_eq_getLast?, hm] at hlt

/-! ### The chunking-loop invariant -/

theorem chunkInv_init (size : Nat) : ChunkInv size [] ⟨[], [], [], []⟩ := by
  refine ⟨rfl, ?_, ?_, ?_, rfl, ?_, ?_⟩
  · intro s hs; cases hs
  · left; exact Nat.zero_le _
  · intro ch hch; cases hch
  · intro ch hch; cases hch
  · intro _; rfl

theorem chunkInv_step {size : Nat} {consumed : List Text} {st : ChunkState} {s : Text}
    (hinv : ChunkInv size consumed st) (hs : goodSentence s) :
    ChunkInv size (consumed ++ [s]) (chunkStep size st s) := by
  obtain ⟨hjoin, hgood, hcur, hchunks, hrec, hcompat, hnil⟩ := hinv
  unfold chunkStep
  by_cases hclose : st.current_chunk.length + s.length + 1 > size ∧ st.current_chunk ≠ []
  · rw [if_pos hclose]
    by_cases hbig : st.sentence_buffer.length > 2
    · rw [if_pos hbig]
      have hovlen : (st.sentence_buffer.drop (st.sentence_buffer.length - 2)).length = 2 := by
        rw [List.length_drop]; omega
      have hovne : st.sentence_buffer.drop (st.sentence_buffer.length - 2) ≠ [] := by
        intro h; rw [h] at hovlen; cases hovlen
      refine ⟨?_, ?_, ?_, ?_, ?_, ?_, ?_⟩
      · exact (joinSp_snoc _ s hovne).symm
      · intro x hx
        have hx' : x ∈ st.sentence_buffer.drop (st.sentence_buffer.length - 2) ++ [s] := hx
        rcases List.mem_append.mp hx' with h1 | h2
        · exact hgood x (List.mem_of_mem_drop h1)
        · rw [List.mem_singleton] at h2; rw [h2]; exact hs
      · right; right
        show (st.sentence_buffer.drop (st.sentence_buffer.length - 2) ++ [s]).length = 3
        rw [List.length_append, hovlen]
        rfl
      · intro ch hch
        have hch' : ch ∈ st.chunks ++ [mkChunk st.current_chunk st.sentence_buffer] := hch
        rcases List.mem_append.mp hch' with h1 | h2
        · exact hchunks ch h1
        · rw [List.mem_singleton] at h2
          rw [h2]
          exact hcur
      · show seqConcat ((st.chunks ++ [mkChunk st.current_chunk st.sentence_buffer]).map
            Chunk.sentences ++ [st.sentence_buffer.drop (st.sentence_buffer.length - 2) ++ [s]])
            = consumed ++ [s]
        rw [List.map_append]
        show seqConcat ((st.chunks.map Chunk.sentences ++ [st.sentence_buffer]) ++ _) = _
        rw [seqConcat_snoc _ _ (by simp), getLastD_concat]
        have hdrop : dropOverlap st.sentence_buffer
            (st.sentence_buffer.drop (st.sentence_buffer.length - 2) ++ [s]) = [s] := by
          have hd2 : (st.sentence_buffer.drop (st.sentence_buffer.length - 2)).drop 2 = [] := by
            apply List.drop_eq_nil_of_le
            rw [hovlen]
          unfold dropOverlap
          rw [if_pos hbig, List.drop_append_of_le_length (by omega), hd2, List.nil_append]
        rw [hdrop, hrec]
      · intro ch hch hlen
        show 2 ≤ (st.sentence_buffer.drop (st.sentence_buffer.length - 2) ++ [s]).length
        rw [List.length_append, hovlen]
        omega
      · intro h
        have h' : st.sentence_buffer.drop (st.sentence_buffer.length - 2) ++ [s] = [] := h
        simp at h'
    · rw [if_neg hbig]
      refine ⟨?_, ?_, ?_, ?_, ?_, ?_, ?_⟩
      · simp [joinSp]
      · intro x hx
        have hx' : x ∈ [s] := hx
        rw [List.mem_singleton] at hx'; rw [hx']; exact hs
      · right; left; rfl
      · intro ch hch
        have hch' : ch ∈ st.chunks ++ [mkChunk st.current_chunk st.sentence_buffer] := hch
        rcases List.mem_append.mp hch' with h1 | h2
        · exact hchunks ch h1
        · rw [List.mem_singleton] at h2
          rw [h2]
          exact hcur
      · show seqConcat ((st.chunks ++ [mkChunk st.current_chunk st.sentence_buffer]).map
            Chunk.sentences ++ [[s]]) = consumed ++ [s]
        rw [List.map_append]
        show seqConcat ((st.chunks.map Chunk.sentences ++ [st.sentence_buffer]) ++ _) = _
        rw [seqConcat_snoc _ _ (by simp), getLastD_concat]
        have hdrop : dropOverlap st.sentence_buffer [s] = [s] := by
          unfold dropOverlap
          rw [if_neg hbig]
        rw [hdrop, hrec]
      · intro ch hch hlen
        have hch' : (st.chunks ++ [mkChunk st.current_chunk st.sentence_buffer]).getLast?
            = some ch := hch
        rw [List.getLast?_concat, Option.some.injEq] at hch'
        rw [← hch'] at hlen
        have hlen' : 2 < st.sentence_buffer.length := hlen
        exact absurd hlen' hbig
      · intro h
        have h' : [s] = ([] : List Text) := h
        cases h'
  · rw [if_neg hclose]
    by_cases hcurnil : st.current_chunk = []
    · have hbufnil : st.sentence_buffer = [] := by
        apply buf_nil_of_join_nil hgood
        rw [← hjoin]; exact hcurnil
      have hchnil : st.chunks = [] := hnil hbufnil
      refine ⟨?_, ?_, ?_, ?_, ?_, ?_, ?_⟩
      · show (if st.current_chunk ≠ [] then st.current_chunk ++ ' ' :: s else s)
            = joinSp (st.sentence_buffer ++ [s])
        rw [if_neg (by simpa using hcurnil), hbufnil, List.nil_append]
        rfl
      · intro x hx
        have hx' : x ∈ st.sentence_buffer ++ [s] := hx
        rw [hbufnil, List.nil_append, List.mem_singleton] at hx'
        rw [hx']; exact hs
      · right; left
        show (st.sentence_buffer ++ [s]).length = 1
        rw [hbufnil]; rfl
      · intro ch hch
        exact hchunks ch hch
      · show seqConcat (st.chunks.map Chunk.sentences ++ [st.sentence_buffer ++ [s]])
            = consumed ++ [s]
        rw [hchnil, hbufnil] at hrec ⊢
        simp only [List.map_nil, List.nil_append] at hrec ⊢
        have h2 : consumed = [] := by rw [← hrec]; rfl
        rw [h2]
        rfl
      · intro ch hch
        have hch' : st.chunks.getLast? = some ch := hch
        rw [hchnil] at hch'
        cases hch'
      · intro _
        exact hchnil
    · have hproj : st.current_chunk.length + s.length + 1 ≤ size := by
        by_contra hgt
        exact hclose ⟨by omega, hcurnil⟩
      have hbufne : st.sentence_buffer ≠ [] := by
        intro h
        apply hcurnil
        rw [hjoin, h]
        rfl
      refine ⟨?_, ?_, ?_, ?_, ?_, ?_, ?_⟩
      · show (if st.current_chunk ≠ [] then st.current_chunk ++ ' ' :: s else s)
            = joinSp (st.sentence_buffer ++ [s])
        rw [if_pos (by simpa using hcurnil), joinSp_snoc _ _ hbufne, hjoin]
      · intro x hx
        have hx' : x ∈ st.sentence_buffer ++ [s] := hx
        rcases List.mem_append.mp hx' with h1 | h2
        · exact hgood x h1
        · rw [List.mem_singleton] at h2; rw [h2]; exact hs
      · left
        show (if st.current_chunk ≠ [] then st.current_chunk ++ ' ' :: s else s).length ≤ size
        rw [if_pos (by simpa using hcurnil)]
        simp only [List.length_append, List.length_cons]
        omega
      · intro ch hch
        exact hchunks ch hch
      · show seqConcat (st.chunks.map Chunk.sentences ++ [st.sentence_buffer ++ [s]])
            = consumed ++ [s]
        rw [seqConcat_snoc_extend _ _ _ (compat_map hcompat), hrec]
      · intro ch hch hlen
        have hch' : st.chunks.getLast? = some ch := hch
        have := hcompat ch hch' hlen
        show 2 ≤ (st.sentence_buffer ++ [s]).length
        rw [List.length_append]
        omega
      · intro h
        have h' : st.sentence_buffer ++ [s] = [] := h
        simp at h'

theorem chunkInv_foldl {size : Nat} :
    ∀ (sentences : List Text) (consumed : List Text) (st : ChunkState),
      ChunkInv size consumed st → (∀ s ∈ sentences, goodSentence s) →
      ChunkInv size (consumed ++ sentences) (sentences.foldl (chunkStep size) st) := by
  intro sentences
  induction sentences with
  | nil => intro consumed st h _; simpa using h
  | cons s rest ih =>
    intro consumed st hinv hgood
    have hstep := chunkInv_step hinv (hgood s (List.mem_cons_self s rest))
    have := ih (consumed ++ [s]) _ hstep (fun x hx => hgood x (List.mem_cons_of_mem s hx))
    simpa [List.append_assoc] using this

/-! ### Run-level consequences for the chunker -/

theorem mem_of_head? {t : Text} {c : Char} (h : t.head? = some c) : c ∈ t := by
  cases t with
  | nil => cases h
  | cons a r =>
    simp only [List.head?_cons, Option.some.injEq] at h
    rw [← h]
    exact List.mem_cons_self a r

theorem chunkLoop_inv (text : Text) (size : Nat) (hne : preprocess_text text ≠ []) :
    ChunkInv size (split_sentences (preprocess_text text)) (chunkLoop text size) := by
  have := chunkInv_foldl (split_sentences (preprocess_text text)) [] ⟨[], [], [], []⟩
    (chunkInv_init size) (preprocess_good hne)
  simpa [chunkLoop] using this

theorem chunkLoop_buf_ne (text : Text) (size : Nat) (hne : preprocess_text text ≠ []) :
    (chunkLoop text size).sentence_buffer ≠ [] := by
  intro h
  have hinv := chunkLoop_inv text size hne
  have hch := hinv.nil_buf h
  have hrec := hinv.reconstruct
  rw [hch, h] at hrec
  have h0 : ([] : List Text) = split_sentences (preprocess_text text) := by
    rw [← hrec]
    rfl
  exact splitSentencesAux_ne_nil (preprocess_text text) false [] h0.symm

theorem chunkLoop_strip_ne (text : Text) (size : Nat) (hne : preprocess_text text ≠ []) :
    pyStrip (chunkLoop text size).current_chunk ≠ [] := by
  have hinv := chunkLoop_inv text size hne
  have hbufne := chunkLoop_buf_ne text size hne
  have hgood := joinSp_good hbufne hinv.buf_good
  rw [hinv.join_eq]
  obtain ⟨hne', hhead⟩ := hgood
  cases hj : joinSp (chunkLoop text size).sentence_buffer with
  | nil => exact absurd hj hne'
  | cons c rest =>
    have hc : isWsChar c = false := hhead c (by rw [hj]; rfl)
    exact pyStrip_ne_nil (List.mem_cons_self c rest) hc

theorem create_chunks_run_eq (text : Text) (size : Nat)
    (hne : preprocess_text text ≠ []) :
    create_chunks_run text size =
      { chunkLoop text size with
        chunks := (chunkLoop text size).chunks ++
          [mkChunk (chunkLoop text size).current_chunk
            (chunkLoop text size).sentence_buffer] } := by
  unfold create_chunks_run
  rw [if_pos (chunkLoop_strip_ne text size hne)]

theorem create_chunks_eq (text : Text) (size ov : Nat)
    (hne : preprocess_text text ≠ []) :
    create_chunks text size ov =
      (chunkLoop text size).chunks ++
        [mkChunk (chunkLoop text size).current_chunk
          (chunkLoop text size).sentence_buffer] := by
  rw [create_chunks, create_chunks_run_eq text size hne]

theorem create_chunks_empty {text : Text} (h : preprocess_text text = [])
    (size ov : Nat) : create_chunks text size ov = [] := by
  have hloop : chunkLoop text size = ⟨[], [], [[]], []⟩ := by
    unfold chunkLoop
    rw [h]
    show chunkStep size ⟨[], [], [], []⟩ ([] : Text) = ⟨[], [], [[]], []⟩
    unfold chunkStep
    rw [if_neg (by intro hc; exact hc.2 rfl)]
    rfl
  rw [create_chunks]
  unfold create_chunks_run
  rw [hloop]
  rfl

theorem create_chunks_reconstruct (text : Text) (size ov : Nat)
    (hne : preprocess_text text ≠ []) :
    seqConcat ((create_chunks text size ov).map Chunk.sentences) =
      split_sentences (preprocess_text text) := by
  rw [create_chunks_eq text size ov hne, List.map_append]
  show seqConcat ((chunkLoop text size).chunks.map Chunk.sentences ++
    [(chunkLoop text size).sentence_buffer]) = _
  exact (chunkLoop_inv text size hne).reconstruct

theorem create_chunks_bound_aux (text : Text) (size ov : Nat) :
    ∀ ch ∈ create_chunks text size ov,
      ch.length ≤ size ∨ ch.sentence_count = 1 ∨ ch.sentence_count = 3 := by
  by_cases hne : preprocess_text text = []
  · rw [create_chunks_empty hne size ov]
    intro ch hch
    cases hch
  · intro ch hch
    rw [create_chunks_eq text size ov hne] at hch
    rcases List.mem_append.mp hch with h1 | h2
    · exact (chunkLoop_inv text size hne).chunks_bound ch h1
    · rw [List.mem_singleton] at h2
      rw [h2]
      exact (chunkLoop_inv text size hne).cur_bound

/-! ### The boundary trace: every boundary closes one chunk and seeds the
next one with the documented overlap -/

theorem corr_extend {buf : List Text} {bs : List Boundary} {cs : List Chunk}
    (s : Text) (h : corr buf bs cs) : corr (buf ++ [s]) bs cs := by
  induction bs generalizing cs with
  | nil =>
    cases cs with
    | nil => trivial
    | cons c cs' => exact False.elim h
  | cons b bs' ih =>
    cases cs with
    | nil => exact False.elim h
    | cons c cs' =>
      obtain ⟨h1, h2, h3, h4⟩ := h
      refine ⟨h1, h2, ?_, ih h4⟩
      cases cs' with
      | nil =>
        obtain ⟨t, ht⟩ := h3
        exact ⟨t ++ [s], by rw [ht, List.append_assoc]⟩
      | cons c2 cs'' => exact h3

theorem corr_snoc (buf buf' : List Text) (b : Boundary) (c : Chunk)
    (hc : c.sentences = buf) (hb : b.closedBuffer = buf)
    (hshape : shapeOk b) (hseed : ∃ t, buf' = b.newBuffer ++ t) :
    ∀ {bs : List Boundary} {cs : List Chunk}, corr buf bs cs →
      corr buf' (bs ++ [b]) (cs ++ [c]) := by
  intro bs
  induction bs with
  | nil =>
    intro cs h
    cases cs with
    | nil => exact ⟨by rw [hb, hc], hshape, hseed, trivial⟩
    | cons _ _ => exact False.elim h
  | cons b0 bs' ih =>
    intro cs h
    cases cs with
    | nil => exact False.elim h
    | cons c0 cs' =>
      obtain ⟨h1, h2, h3, h4⟩ := h
      refine ⟨h1, h2, ?_, ih h4⟩
      cases cs' with
      | nil =>
        obtain ⟨t, ht⟩ := h3
        exact ⟨t, by rw [hc, ht]⟩
      | cons c2 cs'' => exact h3

theorem corr_step {size : Nat} {st : ChunkState} (s : Text)
    (h : corr st.sentence_buffer st.boundaries st.chunks) :
    corr (chunkStep size st s).sentence_buffer (chunkStep size st s).boundaries
      (chunkStep size st s).chunks := by
  unfold chunkStep
  by_cases hclose : st.current_chunk.length + s.length + 1 > size ∧ st.current_chunk ≠ []
  · rw [if_pos hclose]
    by_cases hbig : st.sentence_buffer.length > 2
    · rw [if_pos hbig]
      have hovlen : (st.sentence_buffer.drop (st.sentence_buffer.length - 2)).length = 2 := by
        rw [List.length_drop]; omega
      have hovne : st.sentence_buffer.drop (st.sentence_buffer.length - 2) ≠ [] := by
        intro h0; rw [h0] at hovlen; cases hovlen
      show corr (st.sentence_buffer.drop (st.sentence_buffer.length - 2) ++ [s])
        (st.boundaries ++ [⟨st.sentence_buffer, s,
          joinSp (st.sentence_buffer.drop (st.sentence_buffer.length - 2)) ++ ' ' :: s,
          st.sentence_buffer.drop (st.sentence_buffer.length - 2) ++ [s]⟩])
        (st.chunks ++ [mkChunk st.current_chunk st.sentence_buffer])
      have hsh : shapeOk (⟨st.sentence_buffer, s,
          joinSp (st.sentence_buffer.drop (st.sentence_buffer.length - 2)) ++ ' ' :: s,
          st.sentence_buffer.drop (st.sentence_buffer.length - 2) ++ [s]⟩ : Boundary) := by
        constructor
        · intro _
          exact ⟨rfl, (joinSp_snoc _ s hovne).symm⟩
        · intro hle
          have hle' : st.sentence_buffer.length ≤ 2 := hle
          exact absurd hle' (by omega)
      exact corr_snoc st.sentence_buffer _ _
        (mkChunk st.current_chunk st.sentence_buffer) rfl rfl hsh
        ⟨[], by rw [List.append_nil]⟩ h
    · rw [if_neg hbig]
      show corr [s]
        (st.boundaries ++ [⟨st.sentence_buffer, s, s, [s]⟩])
        (st.chunks ++ [mkChunk st.current_chunk st.sentence_buffer])
      have hsh : shapeOk (⟨st.sentence_buffer, s, s, [s]⟩ : Boundary) := by
        constructor
        · intro hgt
          have hgt' : 2 < st.sentence_buffer.length := hgt
          exact absurd hgt' hbig
        · intro _
          exact ⟨rfl, rfl⟩
      exact corr_snoc st.sentence_buffer _ _
        (mkChunk st.current_chunk st.sentence_buffer) rfl rfl hsh
        ⟨[], by rw [List.append_nil]⟩ h
  · rw [if_neg hclose]
    show corr (st.sentence_buffer ++ [s]) st.boundaries st.chunks
    exact corr_extend s h

theorem corr_foldl {size : Nat} :
    ∀ (sentences : List Text) (st : ChunkState),
      corr st.sentence_buffer st.boundaries st.chunks →
      corr ((sentences.foldl (chunkStep size) st)).sentence_buffer
        ((sentences.foldl (chunkStep size) st)).boundaries
        ((sentences.foldl (chunkStep size) st)).chunks := by
  intro sentences
  induction sentences with
  | nil =>
    intro st h
    exact h
  | cons s rest ih =>
    intro st h
    exact ih _ (corr_step s h)

theorem chunkLoop_corr (text : Text) (size : Nat) :
    corr (chunkLoop text size).sentence_buffer (chunkLoop text size).boundaries
      (chunkLoop text size).chunks := by
  unfold chunkLoop
  exact corr_foldl _ ⟨[], [], [], []⟩ trivial

theorem corr_index {buf : List Text} :
    ∀ (bs : List Boundary) (cs : List Chunk), corr buf bs cs →
      bs.length = cs.length ∧
      ∀ i, i < bs.length →
        (bs.getD i noBoundary).closedBuffer = (cs.getD i noChunk).sentences ∧
        shapeOk (bs.getD i noBoundary) ∧
        (i + 1 < cs.length →
          ∃ t, (cs.getD (i + 1) noChunk).sentences =
            (bs.getD i noBoundary).newBuffer ++ t) ∧
        (i + 1 = cs.length →
          ∃ t, buf = (bs.getD i noBoundary).newBuffer ++ t) := by
  intro bs
  induction bs with
  | nil =>
    intro cs h
    cases cs with
    | nil => exact ⟨rfl, fun i hi => absurd hi (by simp)⟩
    | cons _ _ => exact False.elim h
  | cons b bs' ih =>
    intro cs h
    cases cs with
    | nil => exact False.elim h
    | cons c cs' =>
      obtain ⟨h1, h2, h3, h4⟩ := h
      obtain ⟨hlen, hind⟩ := ih cs' h4
      refine ⟨by simp [hlen], ?_⟩
      intro i hi
      cases i with
      | zero =>
        refine ⟨by simpa using h1, by simpa using h2, ?_, ?_⟩
        · intro hlt
          cases cs' with
          | nil => simp at hlt
          | cons c2 cs'' =>
            obtain ⟨t, ht⟩ := h3
            exact ⟨t, by simpa using ht⟩
        · intro heq
          cases cs' with
          | nil =>
            obtain ⟨t, ht⟩ := h3
            exact ⟨t, by simpa using ht⟩
          | cons c2 cs'' => simp at heq
      | succ j =>
        have hj : j < bs'.length := by simpa using hi
        obtain ⟨ha, hb', hc', hd⟩ := hind j hj
        refine ⟨by simpa using ha, by simpa using hb', ?_, ?_⟩
        · intro hlt
          have hlt' : j + 1 < cs'.length := by simpa using hlt
          obtain ⟨t, ht⟩ := hc' hlt'
          exact ⟨t, by simpa using ht⟩
        · intro heq
          have heq' : j + 1 = cs'.length := by simpa using heq
          obtain ⟨t, ht⟩ := hd heq'
          exact ⟨t, by simpa using ht⟩

/-! ### Sorting and search lemmas -/

theorem mem_insertDesc {x a : ScoredChunk} :
    ∀ {l : List ScoredChunk}, a ∈ insertDesc x l ↔ a = x ∨ a ∈ l := by
  intro l
  induction l with
  | nil => simp [insertDesc]
  | cons y ys ih =>
    simp only [insertDesc]
    by_cases h : x.similarity_score < y.similarity_score
    · rw [if_pos h]
      simp only [List.mem_cons, ih]
      tauto
    · rw [if_neg h]
      simp only [List.mem_cons]

theorem mem_sortDesc {a : ScoredChunk} :
    ∀ {l : List ScoredChunk}, a ∈ sortDesc l ↔ a ∈ l := by
  intro l
  induction l with
  | nil => simp [sortDesc]
  | cons x xs ih =>
    show a ∈ insertDesc x (sortDesc xs) ↔ _
    rw [mem_insertDesc, ih, List.mem_cons]

theorem sorted_insertDesc {x : ScoredChunk} :
    ∀ {l : List ScoredChunk}, List.Sorted scoreGE l →
      List.Sorted scoreGE (insertDesc x l) := by
  intro l
  induction l with
  | nil =>
    intro _
    simp [insertDesc]
  | cons y ys ih =>
    intro hs
    rw [List.sorted_cons] at hs
    obtain ⟨hy, hys⟩ := hs
    simp only [insertDesc]
    by_cases h : x.similarity_score < y.similarity_score
    · rw [if_pos h, List.sorted_cons]
      constructor
      · intro b hb
        rcases mem_insertDesc.mp hb with rfl | hb'
        · exact le_of_lt h
        · exact hy b hb'
      · exact ih hys
    · rw [if_neg h, List.sorted_cons]
      constructor
      · intro b hb
        rcases List.mem_cons.mp hb with rfl | hb'
        · exact le_of_not_lt h
        · show b.similarity_score ≤ x.similarity_score
          have h1 : b.similarity_score ≤ y.similarity_score := hy b hb'
          have h2 : y.similarity_score ≤ x.similarity_score := le_of_not_lt h
          exact le_trans h1 h2
      · exact List.sorted_cons.mpr ⟨hy, hys⟩

theorem sorted_sortDesc : ∀ (l : List ScoredChunk), List.Sorted scoreGE (sortDesc l) := by
  intro l
  induction l with
  | nil => simp [sortDesc]
  | cons x xs ih => exact sorted_insertDesc ih

theorem filter_insertDesc (x : ScoredChunk) (sc : ℚ) :
    ∀ (l : List ScoredChunk),
      (insertDesc x l).filter (scoreIs sc) = (x :: l).filter (scoreIs sc) := by
  intro l
  induction l with
  | nil => rfl
  | cons y ys ih =>
    simp only [insertDesc]
    by_cases h : x.similarity_score < y.similarity_score
    · rw [if_pos h]
      by_cases hx : scoreIs sc x = true
      · have hxe : x.similarity_score = sc := by
          simpa [scoreIs] using hx
        have hy : scoreIs sc y = false := by
          simp only [scoreIs, decide_eq_false_iff_not]
          intro hye
          rw [hxe, hye] at h
          exact lt_irrefl sc h
        simp [List.filter_cons, hx, hy, ih]
      · have hx' : scoreIs sc x = false := by
          simpa using hx
        by_cases hy : scoreIs sc y = true
        · simp [List.filter_cons, hx', hy, ih]
        · have hy' : scoreIs sc y = false := by
            simpa using hy
          simp [List.filter_cons, hx', hy', ih]
    · rw [if_neg h]

theorem filter_sortDesc (sc : ℚ) : ∀ (l : List ScoredChunk),
    (sortDesc l).filter (scoreIs sc) = l.filter (scoreIs sc) := by
  intro l
  induction l with
  | nil => rfl
  | cons x xs ih =>
    show (insertDesc x (sortDesc xs)).filter (scoreIs sc) = _
    rw [filter_insertDesc, List.filter_cons, List.filter_cons, ih]

theorem filter_take {α : Type} (p : α → Bool) :
    ∀ (l : List α) (k : Nat),
      (l.take k).filter p = (l.filter p).take ((l.take k).filter p).length := by
  intro l
  induction l with
  | nil =>
    intro k
    simp
  | cons x xs ih =>
    intro k
    cases k with
    | zero => simp
    | succ k' =>
      rw [List.take_succ_cons]
      by_cases hx : p x = true
      · rw [List.filter_cons_of_pos hx, List.filter_cons_of_pos hx,
          List.length_cons, List.take_succ_cons, ← ih]
      · rw [List.filter_cons_of_neg (by simpa using hx),
          List.filter_cons_of_neg (by simpa using hx), ← ih]

theorem search_state (st : EngineState) (q : Text) (k : Nat) :
    (search_relevant_content st q k).1 = st := by
  unfold search_relevant_content
  by_cases h1 : st.chunks = []
  · rw [if_pos h1]
  · rw [if_neg h1]
    by_cases h2 : queryWords q = ∅
    · rw [if_pos h2]
    · rw [if_neg h2]

theorem search_eq (st : EngineState) (q : Text) (k : Nat) :
    (search_relevant_content st q k).2 =
      if st.chunks = [] then []
      else if queryWords q = ∅ then []
      else (sortDesc (scored_chunks st q)).take k := by
  unfold search_relevant_content scored_chunks
  by_cases h1 : st.chunks = []
  · rw [if_pos h1, if_pos h1]
  · rw [if_neg h1, if_neg h1]
    by_cases h2 : queryWords q = ∅
    · rw [if_pos h2, if_pos h2]
    · rw [if_neg h2, if_neg h2]

theorem scored_chunks_empty_query {st : EngineState} {q : Text}
    (h : queryWords q = ∅) : scored_chunks st q = [] := by
  unfold scored_chunks
  rw [List.filterMap_eq_nil_iff]
  intro c _
  unfold scoreChunk
  rw [h]
  simp

/-! ### Ingestion lemmas -/

theorem add_document_error {st : EngineState} {text fn id : Text}
    (hs : pyStrip text = []) :
    add_document st text fn id = .error .extractionError := by
  unfold add_document
  rw [if_pos hs]

theorem add_document_success {st : EngineState} {text fn id : Text}
    (hs : pyStrip text ≠ []) :
    add_document st text fn id =
      .ok ({ documents := st.documents ++
               [(id, { filename := fn,
                       chunks := (create_chunks (pyStrip text) 1000 100).length,
                       total_chars := (pyStrip text).length,
                       preview := preview_of (pyStrip text) })],
             chunks := st.chunks ++
               ((create_chunks (pyStrip text) 1000 100).enum.map (fun p =>
                 { id := id ++ '_' :: natToText p.1, text := p.2.text,
                   text_lower := pyLower p.2.text, filename := fn, doc_id := id,
                   chunk_index := p.1, length := p.2.length,
                   sentence_count := p.2.sentence_count : ChunkData })) },
           id, (create_chunks (pyStrip text) 1000 100).length) := by
  unfold add_document
  rw [if_neg hs]

theorem add_document_ok {st st' : EngineState} {text fn id rid : Text} {n : Nat}
    (h : add_document st text fn id = .ok (st', rid, n)) :
    pyStrip text ≠ [] ∧ rid = id ∧
    n = (create_chunks (pyStrip text) 1000 100).length ∧
    st'.documents = st.documents ++
      [(id, { filename := fn,
              chunks := (create_chunks (pyStrip text) 1000 100).length,
              total_chars := (pyStrip text).length,
              preview := preview_of (pyStrip text) })] ∧
    st'.chunks = st.chunks ++
      ((create_chunks (pyStrip text) 1000 100).enum.map (fun p =>
        { id := id ++ '_' :: natToText p.1, text := p.2.text,
          text_lower := pyLower p.2.text, filename := fn, doc_id := id,
          chunk_index := p.1, length := p.2.length,
          sentence_count := p.2.sentence_count : ChunkData })) := by
  by_cases hs : pyStrip text = []
  · rw [add_document_error hs] at h
    cases h
  · rw [add_document_success hs] at h
    simp only [Except.ok.injEq, Prod.mk.injEq] at h
    obtain ⟨h1, h2, h3⟩ := h
    refine ⟨hs, h2.symm, h3.symm, ?_, ?_⟩
    · rw [← h1]
    · rw [← h1]

theorem enum_map_doc_id (cs : List Chunk) (fn id : Text) :
    ∀ c ∈ cs.enum.map (fun p =>
        { id := id ++ '_' :: natToText p.1, text := p.2.text,
          text_lower := pyLower p.2.text, filename := fn, doc_id := id,
          chunk_index := p.1, length := p.2.length,
          sentence_count := p.2.sentence_count : ChunkData }), c.doc_id = id := by
  intro c hc
  rw [List.mem_map] at hc
  obtain ⟨p, _, hp⟩ := hc
  rw [← hp]

/-- The two collection invariants of claim C9, as a single predicate. -/
theorem reachable_invariant {st : EngineState} (h : Reachable st) :
    st.chunks.length = (st.documents.map (fun p => p.2.chunks)).sum ∧
    ∀ c ∈ st.chunks, ∃ p ∈ st.documents, p.1 = c.doc_id := by
  induction h with
  | init => exact ⟨rfl, fun c hc => absurd hc (by simp [initState])⟩
  | add st st' text fn id rid n _ hfresh hadd ih =>
    obtain ⟨hlen, hmem⟩ := ih
    obtain ⟨_, _, _, hdocs, hchunks⟩ := add_document_ok hadd
    constructor
    · rw [hdocs, hchunks, List.length_append, List.map_append, List.sum_append,
        hlen, List.length_map, List.enum_length]
      simp
    · intro c hc
      rw [hchunks] at hc
      rcases List.mem_append.mp hc with h1 | h2
      · obtain ⟨p, hp, hpe⟩ := hmem c h1
        exact ⟨p, by rw [hdocs]; exact List.mem_append_left _ hp, hpe⟩
      · have hid := enum_map_doc_id (create_chunks (pyStrip text) 1000 100) fn id c h2
        refine ⟨(id, DocMeta.mk fn (create_chunks (pyStrip text) 1000 100).length
            (pyStrip text).length (preview_of (pyStrip text))), ?_, ?_⟩
        · rw [hdocs]
          exact List.mem_append_right _ (List.mem_singleton_self _)
        · exact hid.symm

/-! ### Answer-composer and remaining helper lemmas -/

theorem generate_answer_no_results (callMl : Text → Except GenError Text)
    (st : EngineState) (q lvl : Text)
    (h : (search_relevant_content st q 3).2 = []) :
    generate_answer callMl st q lvl =
      (st, .ok { answer := no_info_answer, sources := [], context_used := 0 }) := by
  unfold generate_answer
  simp only [h]
  rw [if_pos trivial, search_state]

theorem scoreChunk_some {ql : Text} {qw : Finset Text} {c : ChunkData}
    {r : ScoredChunk} (h : scoreChunk ql qw c = some r) :
    qw ∩ wordSet c.text_lower ≠ ∅ ∧
    r = { text := c.text, filename := c.filename,
          similarity_score :=
            min ((((qw ∩ wordSet c.text_lower).card : ℚ) / (qw.card : ℚ)) +
              (if containsSub c.text_lower ql then 3/10 else 0) +
              (if 1 < (qw ∩ wordSet c.text_lower).card then 1/5 else 0)) 1,
          chunk_index := c.chunk_index,
          matching_words := qw ∩ wordSet c.text_lower } := by
  unfold scoreChunk at h
  by_cases he : qw ∩ wordSet c.text_lower = ∅
  · rw [if_pos he] at h
    cases h
  · rw [if_neg he] at h
    simp only [Option.some.injEq] at h
    exact ⟨he, h.symm⟩

theorem chunkLoop_empty {text : Text} (h : preprocess_text text = [])
    (size : Nat) : chunkLoop text size = ⟨[], [], [[]], []⟩ := by
  unfold chunkLoop
  rw [h]
  show chunkStep size ⟨[], [], [], []⟩ ([] : Text) = _
  unfold chunkStep
  rw [if_neg (by intro hc; exact hc.2 rfl)]
  rfl

theorem run_boundaries_eq (text : Text) (size : Nat) :
    (create_chunks_run text size).boundaries = (chunkLoop text size).boundaries := by
  unfold create_chunks_run
  by_cases h : pyStrip (chunkLoop text size).current_chunk ≠ []
  · rw [if_pos h]
  · rw [if_neg h]

/-! ### The claims -/

set_option maxRecDepth 10000

/-- C1 counterexample: for extracted text `"@@@"` (non-empty after trimming,
so extraction succeeds) chunk creation yields zero chunks, yet
`add_document` does not fail: it returns `ok` with 0 chunks and appends a
document metadata record with `chunks = 0`, so the document collection is
changed (count 0 before, 1 after). -/
theorem c1_counterexample :
    create_chunks (pyStrip (str "@@@")) 1000 100 = [] ∧
    add_document initState (str "@@@") (str "f.pdf") (str "doc1") =
      .ok ({ documents := [(str "doc1",
               { filename := str "f.pdf", chunks := 0, total_chars := 3,
                 preview := str "@@@" })],
             chunks := [] }, str "doc1", 0) ∧
    initState.documents.length = 0 := by
  refine ⟨by decide, ?_, rfl⟩
  rw [add_document_success (by decide)]
  rfl

/-- C1 (amended): if the extracted text is empty after trimming,
`add_document` fails with the extraction error and touches nothing; if the
trimmed text is non-empty but chunk creation yields zero chunks,
`add_document` succeeds, appends no chunk records, and appends exactly one
document metadata record with `chunks = 0` (it does not raise an
empty-content error). -/
theorem c1_amended (st : EngineState) (text fn id : Text) :
    (pyStrip text = [] → add_document st text fn id = .error .extractionError) ∧
    (pyStrip text ≠ [] → create_chunks (pyStrip text) 1000 100 = [] →
      add_document st text fn id =
        .ok ({ documents := st.documents ++
                 [(id, { filename := fn, chunks := 0,
                         total_chars := (pyStrip text).length,
                         preview := preview_of (pyStrip text) })],
               chunks := st.chunks }, id, 0)) := by
  constructor
  · intro hs
    exact add_document_error hs
  · intro hs hz
    rw [add_document_success hs, hz]
    simp

/-- Witness for C1 (amended) at the concrete input `"@@@"`. -/
theorem c1_amended_witness :
    (pyStrip (str "@@@") ≠ [] ∧ create_chunks (pyStrip (str "@@@")) 1000 100 = []) ∧
    add_document initState (str "@@@") (str "f.pdf") (str "doc1") =
      .ok ({ documents := initState.documents ++
               [(str "doc1", { filename := str "f.pdf", chunks := 0,
                               total_chars := (pyStrip (str "@@@")).length,
                               preview := preview_of (pyStrip (str "@@@")) })],
             chunks := initState.chunks }, str "doc1", 0) :=
  ⟨⟨by decide, by decide⟩,
    (c1_amended initState (str "@@@") (str "f.pdf") (str "doc1")).2
      (by decide) (by decide)⟩

/-- C2: for every query with a non-empty token set, a stored chunk sharing
no word token with the query is not scored (`scoreChunk` yields `none`,
hence it is neither scored nor returned); a chunk with non-empty
intersection is scored exactly
`min(|common|/|queryTokens| + phraseBonus + sequenceBonus, 1)` with
`phraseBonus = 3/10` iff the lowercased query occurs verbatim in the
chunk's normalized text and `sequenceBonus = 1/5` iff `|common| > 1`; and
every returned search result carries exactly that score of some stored
chunk with non-empty intersection. -/
theorem c2_scoring (st : EngineState) (q : Text) (k : Nat)
    (hq : queryWords q ≠ ∅) :
    (∀ c ∈ st.chunks, queryWords q ∩ wordSet c.text_lower = ∅ →
        scoreChunk (pyLower q) (queryWords q) c = none) ∧
    (∀ c ∈ st.chunks, queryWords q ∩ wordSet c.text_lower ≠ ∅ →
        scoreChunk (pyLower q) (queryWords q) c =
          some { text := c.text, filename := c.filename,
                 similarity_score :=
                   min ((((queryWords q ∩ wordSet c.text_lower).card : ℚ) /
                       ((queryWords q).card : ℚ)) +
                     (if containsSub c.text_lower (pyLower q) then 3/10 else 0) +
                     (if 1 < (queryWords q ∩ wordSet c.text_lower).card then 1/5 else 0)) 1,
                 chunk_index := c.chunk_index,
                 matching_words := queryWords q ∩ wordSet c.text_lower }) ∧
    (∀ r ∈ (search_relevant_content st q k).2, ∃ c ∈ st.chunks,
        queryWords q ∩ wordSet c.text_lower ≠ ∅ ∧
        r.text = c.text ∧ r.filename = c.filename ∧
        r.chunk_index = c.chunk_index ∧
        r.matching_words = queryWords q ∩ wordSet c.text_lower ∧
        r.similarity_score =
          min ((((queryWords q ∩ wordSet c.text_lower).card : ℚ) /
              ((queryWords q).card : ℚ)) +
            (if containsSub c.text_lower (pyLower q) then 3/10 else 0) +
            (if 1 < (queryWords q ∩ wordSet c.text_lower).card then 1/5 else 0)) 1) := by
  refine ⟨?_, ?_, ?_⟩
  · intro c _ he
    simp only [scoreChunk]
    rw [if_pos he]
  · intro c _ he
    simp only [scoreChunk]
    rw [if_neg he]
  · intro r hr
    rw [search_eq] at hr
    by_cases h1 : st.chunks = []
    · rw [if_pos h1] at hr
      cases hr
    · rw [if_neg h1] at hr
      by_cases h2 : queryWords q = ∅
      · exact absurd h2 hq
      · rw [if_neg h2] at hr
        have hr2 : r ∈ sortDesc (scored_chunks st q) := List.mem_of_mem_take hr
        have hr3 : r ∈ scored_chunks st q := mem_sortDesc.mp hr2
        unfold scored_chunks at hr3
        obtain ⟨c, hc, hsc⟩ := List.mem_filterMap.mp hr3
        obtain ⟨hne, herq⟩ := scoreChunk_some hsc
        refine ⟨c, hc, hne, ?_, ?_, ?_, ?_, ?_⟩ <;> rw [herq]

/-- Witness for C2: single-chunk index, query `"Newton"`; the hypotheses
hold and the conclusion is produced by the theorem itself. -/
theorem c2_witness :
    queryWords (str "Newton") ≠ ∅ ∧
    ((∀ c ∈ (EngineState.mk [] [⟨str "d1_0", str "Newton law.",
          str "newton law.", str "p.pdf", str "d1", 0, 11, 1⟩]).chunks,
        queryWords (str "Newton") ∩ wordSet c.text_lower = ∅ →
        scoreChunk (pyLower (str "Newton")) (queryWords (str "Newton")) c = none) ∧
     (∀ c ∈ (EngineState.mk [] [⟨str "d1_0", str "Newton law.",
          str "newton law.", str "p.pdf", str "d1", 0, 11, 1⟩]).chunks,
        queryWords (str "Newton") ∩ wordSet c.text_lower ≠ ∅ →
        scoreChunk (pyLower (str "Newton")) (queryWords (str "Newton")) c =
          some { text := c.text, filename := c.filename,
                 similarity_score :=
                   min ((((queryWords (str "Newton") ∩ wordSet c.text_lower).card : ℚ) /
                       ((queryWords (str "Newton")).card : ℚ)) +
                     (if containsSub c.text_lower (pyLower (str "Newton")) then 3/10 else 0) +
                     (if 1 < (queryWords (str "Newton") ∩ wordSet c.text_lower).card
                       then 1/5 else 0)) 1,
                 chunk_index := c.chunk_index,
                 matching_words := queryWords (str "Newton") ∩ wordSet c.text_lower }) ∧
     (∀ r ∈ (search_relevant_content (EngineState.mk [] [⟨str "d1_0", str "Newton law.",
          str "newton law.", str "p.pdf", str "d1", 0, 11, 1⟩]) (str "Newton") 3).2,
        ∃ c ∈ (EngineState.mk [] [⟨str "d1_0", str "Newton law.",
          str "newton law.", str "p.pdf", str "d1", 0, 11, 1⟩]).chunks,
        queryWords (str "Newton") ∩ wordSet c.text_lower ≠ ∅ ∧
        r.text = c.text ∧ r.filename = c.filename ∧
        r.chunk_index = c.chunk_index ∧
        r.matching_words = queryWords (str "Newton") ∩ wordSet c.text_lower ∧
        r.similarity_score =
          min ((((queryWords (str "Newton") ∩ wordSet c.text_lower).card : ℚ) /
              ((queryWords (str "Newton")).card : ℚ)) +
            (if containsSub c.text_lower (pyLower (str "Newton")) then 3/10 else 0) +
            (if 1 < (queryWords (str "Newton") ∩ wordSet c.text_lower).card
              then 1/5 else 0)) 1)) :=
  ⟨by decide, c2_scoring _ (str "Newton") 3 (by decide)⟩

/-- C3 counterexample: with `chunkSize = 20`, the third emitted chunk of
the text below is `"cc. ddd…d. ee."` of length 38, has 3 sentences (so it
is not a single-sentence chunk), and its trailing sentence `"ee."` has
length 3, yet `38 > 20 + 3`: the claimed bound fails. -/
theorem c3_counterexample :
    ¬ (∀ ch ∈ create_chunks
        (str "aa. bb. cc. ddddddddddddddddddddddddddddd. ee. ff.") 20 100,
        ch.sentence_count = 1 ∨
        ch.length ≤ 20 + (ch.sentences.getLastD []).length) := by
  decide

/-- C3 (amended): every emitted chunk either fits in `chunkSize`, or is
exactly its initial seed: a single oversized sentence (`sentence_count =
1`), or the two carried-over overlap sentences plus the first new sentence
(`sentence_count = 3`).  Chunks that grew past their seed never exceed
`chunkSize` at all. -/
theorem c3_amended (text : Text) (size ov : Nat) :
    ∀ ch ∈ create_chunks text size ov,
      ch.length ≤ size ∨ ch.sentence_count = 1 ∨ ch.sentence_count = 3 :=
  create_chunks_bound_aux text size ov

/-- Witness for C3 (amended) on a concrete chunk. -/
theorem c3_amended_witness :
    ((create_chunks (str "Cats are mammals. Dogs are mammals too. Birds can fly.")
        30 100).getD 0 noChunk
      ∈ create_chunks (str "Cats are mammals. Dogs are mammals too. Birds can fly.")
        30 100) ∧
    (((create_chunks (str "Cats are mammals. Dogs are mammals too. Birds can fly.")
        30 100).getD 0 noChunk).length ≤ 30 ∨
     ((create_chunks (str "Cats are mammals. Dogs are mammals too. Birds can fly.")
        30 100).getD 0 noChunk).sentence_count = 1 ∨
     ((create_chunks (str "Cats are mammals. Dogs are mammals too. Birds can fly.")
        30 100).getD 0 noChunk).sentence_count = 3) :=
  ⟨by decide,
    c3_amended (str "Cats are mammals. Dogs are mammals too. Birds can fly.") 30 100
      _ (by decide)⟩

/-- C4: every boundary of the chunking loop closes the chunk whose
sentences are the recorded buffer, satisfies the documented seeding shape
(`shapeOk`: with more than two closed sentences the new chunk is the
closed buffer's last two sentences, space-joined, followed by the current
sentence; otherwise only the current sentence), and the next emitted chunk
begins with exactly that seeded buffer. -/
theorem c4_overlap (text : Text) (size ov i : Nat)
    (h : i < (create_chunks_run text size).boundaries.length) :
    shapeOk ((create_chunks_run text size).boundaries.getD i noBoundary) ∧
    ((create_chunks_run text size).boundaries.getD i noBoundary).closedBuffer =
      ((create_chunks text size ov).getD i noChunk).sentences ∧
    i + 1 < (create_chunks text size ov).length ∧
    ∃ t, ((create_chunks text size ov).getD (i + 1) noChunk).sentences =
      ((create_chunks_run text size).boundaries.getD i noBoundary).newBuffer ++ t := by
  by_cases hne : preprocess_text text = []
  · exfalso
    rw [run_boundaries_eq, chunkLoop_empty hne] at h
    exact absurd h (by simp)
  · have hcorr := chunkLoop_corr text size
    obtain ⟨hlen, hind⟩ := corr_index _ _ hcorr
    rw [run_boundaries_eq] at h ⊢
    obtain ⟨h1, h2, h3, h4⟩ := hind i h
    have hkey : create_chunks text size ov =
        (chunkLoop text size).chunks ++
          [mkChunk (chunkLoop text size).current_chunk
            (chunkLoop text size).sentence_buffer] :=
      create_chunks_eq text size ov hne
    have hilt : i < (chunkLoop text size).chunks.length := by
      rw [← hlen]
      exact h
    refine ⟨h2, ?_, ?_, ?_⟩
    · rw [hkey, List.getD_append _ _ _ _ hilt]
      exact h1
    · rw [hkey, List.length_append]
      simp only [List.length_cons, List.length_nil]
      omega
    · rw [hkey]
      by_cases hlt : i + 1 < (chunkLoop text size).chunks.length
      · rw [List.getD_append _ _ _ _ hlt]
        exact h3 hlt
      · have heq : i + 1 = (chunkLoop text size).chunks.length := by omega
        rw [List.getD_append_right _ _ _ _ (by omega),
          show i + 1 - (chunkLoop text size).chunks.length = 0 from by omega,
          List.getD_cons_zero]
        exact h4 heq

/-- Witness for C4 at the first boundary of a concrete three-boundary run. -/
theorem c4_witness :
    (0 < (create_chunks_run
        (str "aa. bb. cc. ddddddddddddddddddddddddddddd. ee. ff.") 20).boundaries.length) ∧
    (shapeOk ((create_chunks_run
        (str "aa. bb. cc. ddddddddddddddddddddddddddddd. ee. ff.") 20).boundaries.getD
          0 noBoundary) ∧
     ((create_chunks_run
        (str "aa. bb. cc. ddddddddddddddddddddddddddddd. ee. ff.") 20).boundaries.getD
          0 noBoundary).closedBuffer =
      ((create_chunks (str "aa. bb. cc. ddddddddddddddddddddddddddddd. ee. ff.")
          20 100).getD 0 noChunk).sentences ∧
     0 + 1 < (create_chunks (str "aa. bb. cc. ddddddddddddddddddddddddddddd. ee. ff.")
          20 100).length ∧
     ∃ t, ((create_chunks (str "aa. bb. cc. ddddddddddddddddddddddddddddd. ee. ff.")
          20 100).getD (0 + 1) noChunk).sentences =
       ((create_chunks_run
          (str "aa. bb. cc. ddddddddddddddddddddddddddddd. ee. ff.") 20).boundaries.getD
            0 noBoundary).newBuffer ++ t) :=
  ⟨by decide,
    c4_overlap (str "aa. bb. cc. ddddddddddddddddddddddddddddd. ee. ff.") 20 100 0
      (by decide)⟩

/-- C5: the search result is sorted by score descending, contains at most
`maxResults` entries, and is stable: for every score value, the results
carrying it are an initial segment of the encounter-ordered scored list
filtered to that value (ties keep insertion order). -/
theorem c5_ranking (st : EngineState) (q : Text) (k : Nat) :
    List.Sorted scoreGE (search_relevant_content st q k).2 ∧
    (search_relevant_content st q k).2.length ≤ k ∧
    ∀ s : ℚ,
      ((search_relevant_content st q k).2.filter (scoreIs s)) =
        ((scored_chunks st q).filter (scoreIs s)).take
          (((search_relevant_content st q k).2.filter (scoreIs s)).length) := by
  rw [search_eq]
  by_cases h1 : st.chunks = []
  · rw [if_pos h1]
    refine ⟨by simp, by simp, ?_⟩
    intro s
    have hz : scored_chunks st q = [] := by
      unfold scored_chunks
      rw [h1]
      rfl
    rw [hz]
    rfl
  · rw [if_neg h1]
    by_cases h2 : queryWords q = ∅
    · rw [if_pos h2]
      refine ⟨by simp, by simp, ?_⟩
      intro s
      rw [scored_chunks_empty_query h2]
      rfl
    · rw [if_neg h2]
      refine ⟨?_, ?_, ?_⟩
      · exact List.Pairwise.sublist (List.take_sublist _ _) (sorted_sortDesc _)
      · exact List.length_take_le _ _
      · intro s
        have h3 := filter_take (scoreIs s) (sortDesc (scored_chunks st q)) k
        rw [filter_sortDesc] at h3
        exact h3

/-- C6: for every input whose preprocessed text is non-empty, concatenating
the emitted chunks' sentence sequences in order while dropping each
chunk's two-sentence overlap seed reconstructs exactly the original
sentence sequence of the split — no sentence is dropped. -/
theorem c6_reconstruction (text : Text) (size ov : Nat)
    (hne : preprocess_text text ≠ []) :
    seqConcat ((create_chunks text size ov).map Chunk.sentences) =
      split_sentences (preprocess_text text) :=
  create_chunks_reconstruct text size ov hne

/-- Witness for C6 on the spec's own end-to-end example text. -/
theorem c6_witness :
    preprocess_text (str "Cats are mammals. Dogs are mammals too. Birds can fly.") ≠ [] ∧
    seqConcat ((create_chunks
        (str "Cats are mammals. Dogs are mammals too. Birds can fly.") 30 100).map
          Chunk.sentences) =
      split_sentences (preprocess_text
        (str "Cats are mammals. Dogs are mammals too. Birds can fly.")) :=
  ⟨by decide,
    c6_reconstruction (str "Cats are mammals. Dogs are mammals too. Birds can fly.")
      30 100 (by decide)⟩

/-- C7: a query whose tokenization yields no word tokens (e.g.
whitespace-only or punctuation-only) makes search return the empty result
list; search is a total function, so no error is raised and no
empty-query error kind exists in the model. -/
theorem c7_empty_query (st : EngineState) (q : Text) (k : Nat)
    (h : queryWords q = ∅) : (search_relevant_content st q k).2 = [] := by
  rw [search_eq]
  by_cases h1 : st.chunks = []
  · rw [if_pos h1]
  · rw [if_neg h1, if_pos h]

/-- Witness for C7 on a punctuation-and-whitespace query against a
non-empty index. -/
theorem c7_witness :
    queryWords (str "  ?!,  ") = ∅ ∧
    (search_relevant_content
      (EngineState.mk [] [⟨str "d1_0", str "Cats purr.", str "cats purr.",
        str "p.pdf", str "d1", 0, 10, 1⟩]) (str "  ?!,  ") 3).2 = [] :=
  ⟨by decide,
    c7_empty_query (EngineState.mk [] [⟨str "d1_0", str "Cats purr.",
      str "cats purr.", str "p.pdf", str "d1", 0, 10, 1⟩]) (str "  ?!,  ") 3
      (by decide)⟩

/-- C8: when retrieval returns no chunks, `generate_answer` returns the
fixed no-relevant-information answer with empty sources and
`context_used = 0`, leaves the state unchanged, and never invokes the
external generation capability — the result is independent of it. -/
theorem c8_no_context (callMl : Text → Except GenError Text) (st : EngineState)
    (q lvl : Text) (h : (search_relevant_content st q 3).2 = []) :
    generate_answer callMl st q lvl =
      (st, .ok { answer := no_info_answer, sources := [], context_used := 0 }) ∧
    ∀ callMl' : Text → Except GenError Text,
      generate_answer callMl' st q lvl = generate_answer callMl st q lvl := by
  constructor
  · exact generate_answer_no_results callMl st q lvl h
  · intro callMl'
    rw [generate_answer_no_results callMl st q lvl h,
      generate_answer_no_results callMl' st q lvl h]

/-- Witness for C8: empty index, failing external capability; the fixed
answer is still produced and no error surfaces. -/
theorem c8_witness :
    (search_relevant_content initState (str "hello") 3).2 = [] ∧
    (generate_answer (fun _ => .error .generationFailed) initState (str "hello")
        (str "beginner") =
      (initState, .ok { answer := no_info_answer, sources := [],
                        context_used := 0 }) ∧
     ∀ callMl' : Text → Except GenError Text,
       generate_answer callMl' initState (str "hello") (str "beginner") =
         generate_answer (fun _ => .error .generationFailed) initState
           (str "hello") (str "beginner")) :=
  ⟨by decide,
    c8_no_context (fun _ => .error .generationFailed) initState (str "hello")
      (str "beginner") (by decide)⟩

/-- C9: in every reachable state (initial, or after any sequence of
successful `add_document` calls with fresh ids) the number of stored
chunks equals the sum of the `chunks` counters of all stored document
records, and every stored chunk's `doc_id` refers to a stored document. -/
theorem c9_collections_invariant {st : EngineState} (h : Reachable st) :
    st.chunks.length = (st.documents.map (fun p => p.2.chunks)).sum ∧
    ∀ c ∈ st.chunks, ∃ p ∈ st.documents, p.1 = c.doc_id :=
  reachable_invariant h

/-- Witness for C9 at the initial state. -/
theorem c9_witness :
    Reachable initState ∧
    (initState.chunks.length =
        (initState.documents.map (fun p => p.2.chunks)).sum ∧
     ∀ c ∈ initState.chunks, ∃ p ∈ initState.documents, p.1 = c.doc_id) :=
  ⟨Reachable.init, c9_collections_invariant Reachable.init⟩

/-- C10: `search_relevant_content` and `get_document_stats` return the
state unchanged (they only read it), and a successful `add_document` only
appends: the previous chunk records are a prefix of the new chunk list and
the previous document records are a prefix of the new document list. -/
theorem c10_frame :
    (∀ (st : EngineState) (q : Text) (k : Nat),
       (search_relevant_content st q k).1 = st) ∧
    (∀ st : EngineState, (get_document_stats st).1 = st) ∧
    (∀ (st st' : EngineState) (text fn id rid : Text) (n : Nat),
       add_document st text fn id = .ok (st', rid, n) →
       (∃ newChunks, st'.chunks = st.chunks ++ newChunks) ∧
       (∃ newDoc, st'.documents = st.documents ++ [newDoc])) := by
  refine ⟨search_state, fun st => rfl, ?_⟩
  intro st st' text fn id rid n h
  obtain ⟨_, _, _, hdocs, hchunks⟩ := add_document_ok h
  exact ⟨⟨_, hchunks⟩, ⟨_, hdocs⟩⟩

/-- Witness for C10's append-only part on a concrete successful ingestion. -/
theorem c10_witness :
    add_document initState (str "Cats purr.") (str "p.pdf") (str "d1") =
      .ok (⟨[(str "d1", ⟨str "p.pdf", 1, 10, str "Cats purr."⟩)],
            [⟨str "d1_0", str "Cats purr.", str "cats purr.", str "p.pdf",
              str "d1", 0, 10, 1⟩]⟩, str "d1", 1) ∧
    ((∃ newChunks,
        (⟨[(str "d1", ⟨str "p.pdf", 1, 10, str "Cats purr."⟩)],
          [⟨str "d1_0", str "Cats purr.", str "cats purr.", str "p.pdf",
            str "d1", 0, 10, 1⟩]⟩ : EngineState).chunks =
          initState.chunks ++ newChunks) ∧
     (∃ newDoc,
        (⟨[(str "d1", ⟨str "p.pdf", 1, 10, str "Cats purr."⟩)],
          [⟨str "d1_0", str "Cats purr.", str "cats purr.", str "p.pdf",
            str "d1", 0, 10, 1⟩]⟩ : EngineState).documents =
          initState.documents ++ [newDoc])) :=
  ⟨by rfl,
    c10_frame.2.2 initState _ (str "Cats purr.") (str "p.pdf") (str "d1")
      (str "d1") 1 (by rfl)⟩

end RAG
